import Mathlib

/-!
Verification development for the MedChain blockchain simulator
(`scripts/blockchain_simulator.py`).

The Python module implements a single-writer ledger:

* `Block` — index, timestamp, transactions, previous_hash, nonce, hash,
  with `_calculate_hash` (SHA-256 over a canonical JSON serialization of
  the other five fields) and `mine` (linear proof-of-work scan over
  nonces until the hash starts with `"0" * DIFFICULTY`).
* `MedChainBlockchain` — a chain of blocks, a pending-transaction pool
  and a world state (a Python dict keyed by batch id), with operations
  `create_drug_batch`, `update_batch_status`, `_mine_pending` / `mine`,
  `blockchain_view` and `world_state_view`.

The embedding below is faithful to the Python source with these
standard shallow-embedding conventions:

* The SHA-256-over-JSON digest of `_calculate_hash` is abstracted as a
  parameter `H : HashFn` taking exactly the five fields the Python code
  serializes (index, timestamp, transactions, previous_hash, nonce);
  none of the properties proved here depend on which digest is used.
  Likewise the truncated MD5 used in `_new_tx` is a parameter
  `digest : DigestFn` of the payload.
* Wall-clock reads (`utc_iso()`, `time.time()`) become explicit
  arguments (`now : String`, `timeMs : Nat`) threaded to the operations
  that perform them.
* The unbounded `while` loop of `Block.mine` becomes a fuel-indexed
  function: `none` means the loop has not terminated within the given
  number of iterations (for every fuel value, in the divergent case).
* Python dicts become association lists with Python's update semantics
  (overwrite in place, insert at the end), and raised exceptions become
  `Except` results.
* Where a claim is about Python reference (aliasing) semantics, a
  separate heap-indexed model is used (`BlockRef` below), in which the
  `transactions` list object of a block lives in an explicit store of
  list objects and is denoted by its address.
-/

namespace MedChain

/-- A JSON-style scalar value as stored in transaction payloads and
world-state records (the simulator only ever stores strings and ints). -/
inductive Val where
  | str : String → Val
  | int : Int → Val
deriving DecidableEq, Repr

/-- A Python dict with `String` keys, as an association list in insertion
order. -/
abbrev PyDict (α : Type) := List (String × α)

/-- Python `d[k] = v`: overwrite in place if the key is present, append
otherwise. -/
def pySet {α : Type} : PyDict α → String → α → PyDict α
  | [], k, v => [(k, v)]
  | (k', v') :: rest, k, v =>
      if k' = k then (k, v) :: rest else (k', v') :: pySet rest k v

/-- Python `d.get(k)` / `k in d` lookup. -/
def pyGet? {α : Type} : PyDict α → String → Option α
  | [], _ => none
  | (k', v') :: rest, k => if k' = k then some v' else pyGet? rest k

/-- Python `s.startswith(pre)`: `pre` is a character-prefix of `s`.
Written on the underlying character lists so that it evaluates by
kernel reduction (semantically this is `String.startsWith`). -/
def str_startswith (s pre : String) : Bool :=
  pre.data.isPrefixOf s.data

/-- Transaction payloads (`payload: Dict`). -/
abbrev Payload := PyDict Val

/-- The `Transaction` TypedDict of the simulator. -/
structure Transaction where
  tx_id : String
  type : String
  payload : Payload
  timestamp : String
deriving DecidableEq, Repr

/-- The `Block` class: the five content fields plus the stored `hash`. -/
structure Block where
  index : Nat
  timestamp : String
  transactions : List Transaction
  previous_hash : String
  nonce : Nat
  hash : String
deriving DecidableEq, Repr

/-- Abstraction of `hashlib.sha256(json.dumps({...})).hexdigest()`: a
digest of exactly the five fields `_calculate_hash` serializes. -/
abbrev HashFn := Nat → String → List Transaction → String → Nat → String

/-- Source constant `Block.DIFFICULTY = 2` (leading `"00"`). -/
def Block.DIFFICULTY : Nat := 2

/-- Source local `target = "0" * Block.DIFFICULTY` in `Block.mine`. -/
def Block.target : String := String.mk (List.replicate Block.DIFFICULTY '0')

/-- Source method `Block._calculate_hash`: the digest of the block's five content
fields (the stored `hash` is not an input). -/
def Block.calculate_hash (H : HashFn) (b : Block) : String :=
  H b.index b.timestamp b.transactions b.previous_hash b.nonce

/-- Source constructor `Block.__init__`: nonce starts at 0 and the initial hash is computed
from the fields. -/
def Block.new (H : HashFn) (index : Nat) (now : String)
    (transactions : List Transaction) (previous_hash : String) : Block :=
  let b : Block :=
    { index := index, timestamp := now, transactions := transactions,
      previous_hash := previous_hash, nonce := 0, hash := "" }
  { b with hash := Block.calculate_hash H b }

/-- Source method `Block.mine`: `while not self.hash.startswith(target): self.nonce += 1;
self.hash = self._calculate_hash()`.  The Python loop is unbounded; here
`fuel` bounds the number of nonce increments, and `none` means the loop
has not terminated within `fuel` iterations. -/
def Block.mine (H : HashFn) (fuel : Nat) (b : Block) : Option Block :=
  if str_startswith b.hash Block.target then some b
  else
    match fuel with
    | 0 => none
    | f + 1 =>
      let b2 : Block := { b with nonce := b.nonce + 1 }
      Block.mine H f { b2 with hash := Block.calculate_hash H b2 }

/-- A value occurring in a block summary dict (`Block.summary` returns a
Python dict mixing an int, strings and the transactions list). -/
inductive SVal where
  | nat : Nat → SVal
  | str : String → SVal
  | txs : List Transaction → SVal
deriving DecidableEq, Repr

/-- Source method `Block.summary`: the dict literal of the source, with exactly the
keys it writes, in order: index, timestamp, hash, previous_hash,
transactions.  (Note: the source does not include the nonce.) -/
def Block.summary (b : Block) : PyDict SVal :=
  [("index", SVal.nat b.index),
   ("timestamp", SVal.str b.timestamp),
   ("hash", SVal.str b.hash),
   ("previous_hash", SVal.str b.previous_hash),
   ("transactions", SVal.txs b.transactions)]

/-- Abstraction of
`hashlib.md5(json.dumps(payload, sort_keys=True).encode()).hexdigest()[:8]`:
a digest of the payload. -/
abbrev DigestFn := Payload → String

/-- Source class `MedChainBlockchain`: chain, pending pool and world state. -/
structure MedChainBlockchain where
  chain : List Block
  pending_transactions : List Transaction
  world_state : PyDict Payload
deriving DecidableEq, Repr

/-- The genesis sentinel `previous_hash`, `"0" * 64`. -/
def sentinel : String := String.mk (List.replicate 64 '0')

/-- Source method `MedChainBlockchain._new_tx`: builds a transaction whose id is
`TX-<milliseconds>-<digest of payload>` and whose timestamp is the
current time. -/
def new_tx (digest : DigestFn) (tx_type : String) (payload : Payload)
    (timeMs : Nat) (now : String) : Transaction :=
  { tx_id := "TX-" ++ toString timeMs ++ "-" ++ digest payload,
    type := tx_type, payload := payload, timestamp := now }

/-- Source method `MedChainBlockchain._create_genesis_block`: build the index-0 block
with no transactions and the sentinel previous hash, then mine it. -/
def create_genesis_block (H : HashFn) (now : String) (fuel : Nat) :
    Option Block :=
  Block.mine H fuel (Block.new H 0 now [] sentinel)

/-- Source constructor `MedChainBlockchain.__init__`: empty pending pool and world state,
and a chain holding only the mined genesis block. -/
def MedChainBlockchain.init (H : HashFn) (now : String) (fuel : Nat) :
    Option MedChainBlockchain :=
  (create_genesis_block H now fuel).map fun g =>
    { chain := [g], pending_transactions := [], world_state := [] }

/-- The payload dict built by `create_drug_batch`. -/
def batch_payload (batch_id drug_name manufacturer : String)
    (quantity : Int) (status : String) : Payload :=
  [("batch_id", Val.str batch_id),
   ("drug_name", Val.str drug_name),
   ("manufacturer", Val.str manufacturer),
   ("quantity", Val.int quantity),
   ("status", Val.str status)]

/-- Source method `MedChainBlockchain.create_drug_batch`: build the payload, append a
CREATE_BATCH transaction to the pending pool, write the record (payload
plus the transaction's timestamp) into the world state under `batch_id`
— with no duplicate-key check — and return the transaction id. -/
def create_drug_batch (digest : DigestFn) (st : MedChainBlockchain)
    (batch_id drug_name manufacturer : String) (quantity : Int)
    (status : String) (timeMs : Nat) (now : String) :
    MedChainBlockchain × String :=
  let payload := batch_payload batch_id drug_name manufacturer quantity status
  let tx := new_tx digest "CREATE_BATCH" payload timeMs now
  ({ st with
      pending_transactions := st.pending_transactions ++ [tx],
      world_state :=
        pySet st.world_state batch_id
          (pySet payload "timestamp" (Val.str tx.timestamp)) },
   tx.tx_id)

/-- Source method `MedChainBlockchain.update_batch_status`: raise `ValueError` when the
batch id is absent from the world state; otherwise append an
UPDATE_STATUS transaction and overwrite the record's status and
timestamp in place. -/
def update_batch_status (digest : DigestFn) (st : MedChainBlockchain)
    (batch_id status : String) (timeMs : Nat) (now : String) :
    Except String (MedChainBlockchain × String) :=
  match pyGet? st.world_state batch_id with
  | none =>
      Except.error ("Batch " ++ batch_id ++ " does not exist in world state")
  | some record =>
      let payload : Payload :=
        [("batch_id", Val.str batch_id), ("status", Val.str status)]
      let tx := new_tx digest "UPDATE_STATUS" payload timeMs now
      Except.ok
        ({ st with
            pending_transactions := st.pending_transactions ++ [tx],
            world_state :=
              pySet st.world_state batch_id
                (pySet (pySet record "status" (Val.str status))
                  "timestamp" (Val.str tx.timestamp)) },
         tx.tx_id)

/-- Source method `MedChainBlockchain._mine_pending` (public wrapper `mine`): with an
empty pool, return the tip hash unchanged; otherwise build a block of
the pending transactions on top of the tip, mine it, append it and clear
the pool, returning the new hash.  `none` covers the two situations in
which the Python call does not return normally: an empty chain
(`chain[-1]` raises) and a mining loop that has not terminated within
`fuel` iterations. -/
def mine_pending (H : HashFn) (st : MedChainBlockchain) (now : String)
    (fuel : Nat) : Option (MedChainBlockchain × String) :=
  match st.chain.getLast? with
  | none => none
  | some tip =>
      if st.pending_transactions.isEmpty then some (st, tip.hash)
      else
        match Block.mine H fuel
          (Block.new H st.chain.length now st.pending_transactions tip.hash) with
        | none => none
        | some sealed =>
            some
              ({ st with
                  chain := st.chain ++ [sealed],
                  pending_transactions := [] },
               sealed.hash)

/-- Source method `MedChainBlockchain.blockchain_view`: the list of block summaries. -/
def blockchain_view (st : MedChainBlockchain) : List (PyDict SVal) :=
  st.chain.map Block.summary

/-- Source method `MedChainBlockchain.world_state_view`:
`json.loads(json.dumps(world_state))` — a deep copy, i.e. the same
value with no object shared with the ledger. -/
def world_state_view (st : MedChainBlockchain) : PyDict Payload :=
  st.world_state

/-- The ledger states reachable from construction by any sequence of
submit (`create_drug_batch`, `update_batch_status`) and seal
(`mine_pending`) calls, for arbitrary clock readings and mining fuel. -/
inductive Reachable (H : HashFn) (digest : DigestFn) :
    MedChainBlockchain → Prop where
  | genesis : ∀ now fuel st,
      MedChainBlockchain.init H now fuel = some st → Reachable H digest st
  | create : ∀ st batch_id drug_name manufacturer quantity status timeMs now,
      Reachable H digest st →
      Reachable H digest
        (create_drug_batch digest st batch_id drug_name manufacturer
          quantity status timeMs now).1
  | update : ∀ st batch_id status timeMs now st' tid,
      Reachable H digest st →
      update_batch_status digest st batch_id status timeMs now =
        Except.ok (st', tid) →
      Reachable H digest st'
  | mine : ∀ st now fuel st' h,
      Reachable H digest st →
      mine_pending H st now fuel = some (st', h) →
      Reachable H digest st'

/-!
## Reference-semantics model for view isolation

`Block.summary` builds a fresh dict, but the value it stores under
`"transactions"` is `self.transactions` itself — the very list object
held by the block, not a copy.  To reason about what a caller's
mutation of a view does to the ledger, transaction-list objects are
modelled as cells of an explicit heap and a block holds the address of
its cell.
-/

/-- A heap of Python list-of-transaction objects; an address is an index
into the store. -/
abbrev Heap := List (List Transaction)

/-- Dereference a list object (unallocated addresses read as `[]`). -/
def heapGet (h : Heap) (r : Nat) : List Transaction :=
  h.getD r []

/-- Mutate the list object at address `r` in place. -/
def heapSet (h : Heap) (r : Nat) (v : List Transaction) : Heap :=
  h.set r v

/-- A `Block` under reference semantics: `txref` is the address of its
transactions list object. -/
structure BlockRef where
  index : Nat
  timestamp : String
  txref : Nat
  previous_hash : String
  nonce : Nat
  hash : String
deriving DecidableEq, Repr

/-- The summary dict under reference semantics: the dict literal in
`Block.summary` copies the scalar fields by value but stores the same
transactions list object (the address, not a fresh copy). -/
structure SummaryRef where
  index : Nat
  timestamp : String
  hash : String
  previous_hash : String
  txref : Nat
deriving DecidableEq, Repr

/-- Source method `Block.summary` under reference semantics. -/
def BlockRef.summary (b : BlockRef) : SummaryRef :=
  { index := b.index, timestamp := b.timestamp, hash := b.hash,
    previous_hash := b.previous_hash, txref := b.txref }

/-- Source method `blockchain_view` under reference semantics: one summary per block. -/
def blockchain_view_ref (chain : List BlockRef) : List SummaryRef :=
  chain.map BlockRef.summary

/-- What a reader of a view observes on a given heap: each summary with
its transactions list object dereferenced. -/
def read_view (h : Heap) (view : List SummaryRef) :
    List (SummaryRef × List Transaction) :=
  view.map fun s => (s, heapGet h s.txref)

/-- The chain-integrity invariant of the specification: indices are
positional, stored hashes are recomputable from the stored fields, and
every non-genesis block links to its predecessor's hash. -/
def chainInv (H : HashFn) (c : List Block) : Prop :=
  ∀ i, (hi : i < c.length) →
    (c.get ⟨i, hi⟩).index = i ∧
    (c.get ⟨i, hi⟩).hash = Block.calculate_hash H (c.get ⟨i, hi⟩) ∧
    ∀ _hpos : 0 < i,
      (c.get ⟨i, hi⟩).previous_hash = (c.get ⟨i - 1, by omega⟩).hash

end MedChain

namespace MedChain

/-!
## Concrete instances for witnesses and counterexamples

`Hc` is a toy hash function whose digest has the `"00"` prefix exactly
when the nonce reaches `index + 2`, so mining scans a few nonces before
succeeding; `Hbad` is one whose digest never has the prefix, so the
mining loop never exits.  `digestC` is a concrete payload digest.
-/

/-- Toy block hash: the `"00"` prefix appears exactly at nonce
`index + 2`. -/
def Hc : HashFn := fun i _ _ _ n => if n = i + 2 then "00h" else "xh"

/-- Toy block hash with no satisfying nonce: every digest is `"ff"`. -/
def Hbad : HashFn := fun _ _ _ _ _ => "ff"

/-- Toy payload digest. -/
def digestC : DigestFn := fun p => toString p.length

/-- The genesis block produced by `create_genesis_block Hc "t0"`:
mined at nonce 2. -/
def genesis0 : Block :=
  { index := 0, timestamp := "t0", transactions := [],
    previous_hash := sentinel, nonce := 2, hash := "00h" }

/-- The ledger as constructed by `MedChainBlockchain.init Hc "t0"`. -/
def ledger0 : MedChainBlockchain :=
  { chain := [genesis0], pending_transactions := [], world_state := [] }

/-- The transaction created by
`create_drug_batch digestC ledger0 "b1" "Para" "Acme" 10 "pending" 7 "t1"`
(the payload has five entries, so `digestC` yields `"5"`). -/
def tx1 : Transaction :=
  { tx_id := "TX-7-5", type := "CREATE_BATCH",
    payload := batch_payload "b1" "Para" "Acme" 10 "pending",
    timestamp := "t1" }

/-- The world-state record written for `"b1"` by that call. -/
def record1 : Payload :=
  batch_payload "b1" "Para" "Acme" 10 "pending" ++ [("timestamp", Val.str "t1")]

/-- The ledger after that `create_drug_batch` call on `ledger0`. -/
def ledger1 : MedChainBlockchain :=
  { chain := [genesis0], pending_transactions := [tx1],
    world_state := [("b1", record1)] }

/-- The block sealed by `mine_pending Hc ledger1 "t2" 9`: under `Hc` the
index-1 block mines at nonce 3. -/
def block1 : Block :=
  { index := 1, timestamp := "t2", transactions := [tx1],
    previous_hash := "00h", nonce := 3, hash := "00h" }

/-- The ledger after sealing `ledger1`. -/
def ledger2 : MedChainBlockchain :=
  { chain := [genesis0, block1], pending_transactions := [],
    world_state := [("b1", record1)] }

/-- A one-cell heap holding the transactions list of a one-block chain,
for the view-isolation counterexample. -/
def heap0 : Heap := [[tx1]]

/-- The block owning the list object at address 0. -/
def blockR : BlockRef :=
  { index := 1, timestamp := "t2", txref := 0, previous_hash := "00h",
    nonce := 3, hash := "00h" }

/-- The pending pool after submitting the same batch twice in the same
millisecond. -/
def st_dup : MedChainBlockchain :=
  (create_drug_batch digestC
    (create_drug_batch digestC ledger0 "X" "D" "M" 1 "pending" 100 "tc").1
    "X" "D" "M" 1 "pending" 100 "tc").1

/-- Membership of a key in a dict is invariant under `pySet` of another
key, and `pySet` writes exactly the given key. -/
theorem pyGet?_pySet_self {α : Type} (d : PyDict α) (k : String) (v : α) :
    pyGet? (pySet d k v) k = some v := by
  induction d with
  | nil => simp [pySet, pyGet?]
  | cons hd tl ih =>
      by_cases h : hd.1 = k
      · simp [pySet, pyGet?, h]
      · simp [pySet, pyGet?, h, ih]

/-- Writing one key with `pySet` leaves every other key's binding unchanged. -/
theorem pyGet?_pySet_ne {α : Type} (d : PyDict α) (k k' : String) (v : α)
    (hne : k' ≠ k) : pyGet? (pySet d k v) k' = pyGet? d k' := by
  have hkk : ¬(k = k') := fun h => hne h.symm
  induction d with
  | nil => simp [pySet, pyGet?, hkk]
  | cons hd tl ih =>
      obtain ⟨hk, hv⟩ := hd
      by_cases h : hk = k
      · subst h
        simp [pySet, pyGet?, hkk]
      · by_cases h2 : hk = k'
        · simp [pySet, pyGet?, h, h2, hne]
        · simp [pySet, pyGet?, h, h2, ih]

/-- Writing a heap cell in place: reading it back yields the new list. -/
theorem heapGet_heapSet_self (h : Heap) (r : Nat) (v : List Transaction)
    (hr : r < h.length) : heapGet (heapSet h r v) r = v := by
  simp [heapGet, heapSet, List.getD, List.getElem?_set_self, hr]

/-- Full specification of the mining loop: when `Block.mine` returns a
block, the content fields other than the nonce are unchanged, the stored
hash is the recomputation of the final fields and has the target prefix,
and every nonce from the starting one up to the final one fails the
prefix test (the scan is linear, so the first satisfying nonce is
returned). -/
theorem Block.mine_spec (H : HashFn) :
    ∀ (fuel : Nat) (b b' : Block),
      b.hash = Block.calculate_hash H b →
      Block.mine H fuel b = some b' →
      b'.index = b.index ∧ b'.timestamp = b.timestamp ∧
      b'.transactions = b.transactions ∧
      b'.previous_hash = b.previous_hash ∧
      b'.hash = Block.calculate_hash H b' ∧
      str_startswith b'.hash Block.target = true ∧
      b.nonce ≤ b'.nonce ∧
      ∀ m, b.nonce ≤ m → m < b'.nonce →
        str_startswith (Block.calculate_hash H { b with nonce := m })
          Block.target = false := by
  intro fuel
  induction fuel with
  | zero =>
    intro b b' hb hm
    rw [Block.mine] at hm
    by_cases h : str_startswith b.hash Block.target = true
    · rw [if_pos h] at hm
      obtain rfl : b = b' := Option.some.inj hm
      refine ⟨rfl, rfl, rfl, rfl, hb, h, le_refl _, ?_⟩
      intro m hm1 hm2
      omega
    · rw [if_neg h] at hm
      exact absurd hm (by simp)
  | succ f ih =>
    intro b b' hb hm
    rw [Block.mine] at hm
    by_cases h : str_startswith b.hash Block.target = true
    · rw [if_pos h] at hm
      obtain rfl : b = b' := Option.some.inj hm
      refine ⟨rfl, rfl, rfl, rfl, hb, h, le_refl _, ?_⟩
      intro m hm1 hm2
      omega
    · rw [if_neg h] at hm
      obtain ⟨h1, h2, h3, h4, h5, h6, h7, h8⟩ := ih _ b' rfl hm
      have h7' : b.nonce + 1 ≤ b'.nonce := h7
      refine ⟨h1, h2, h3, h4, h5, h6, by omega, ?_⟩
      intro m hm1 hm2
      rcases Nat.eq_or_lt_of_le hm1 with heq | hlt
      · have hbm : ({ b with nonce := m } : Block) = b := by rw [← heq]
        rw [hbm, ← hb]
        simpa using h
      · exact h8 m hlt hm2

/-- A one-block chain with a positional index and a recomputable hash
satisfies the invariant. -/
theorem chainInv_singleton (H : HashFn) (g : Block)
    (hidx : g.index = 0) (hhash : g.hash = Block.calculate_hash H g) :
    chainInv H [g] := by
  intro i hi
  have hi0 : i = 0 := by simpa using hi
  subst hi0
  exact ⟨hidx, hhash, fun hpos => absurd hpos (by omega)⟩

/-- Appending a block whose index is the chain length, whose hash is
recomputable, and whose previous hash is the tip's hash preserves the
invariant. -/
theorem chainInv_append (H : HashFn) (c : List Block) (b : Block)
    (hne : c ≠ []) (hc : chainInv H c)
    (hidx : b.index = c.length)
    (hhash : b.hash = Block.calculate_hash H b)
    (hprev : b.previous_hash = (c.getLast hne).hash) :
    chainInv H (c ++ [b]) := by
  intro i hi
  have hlen : (c ++ [b]).length = c.length + 1 := by simp
  by_cases hlt : i < c.length
  · have e1 : (c ++ [b]).get ⟨i, hi⟩ = c.get ⟨i, hlt⟩ := by
      simp only [List.get_eq_getElem]
      exact List.getElem_append_left hlt
    obtain ⟨ha1, ha2, ha3⟩ := hc i hlt
    refine ⟨by rw [e1]; exact ha1, by rw [e1]; exact ha2, ?_⟩
    intro hpos
    have hlt' : i - 1 < c.length := by omega
    have e2 : (c ++ [b]).get ⟨i - 1, by omega⟩ = c.get ⟨i - 1, hlt'⟩ := by
      simp only [List.get_eq_getElem]
      exact List.getElem_append_left hlt'
    rw [e1, e2]
    exact ha3 hpos
  · have hieq : i = c.length := by omega
    subst hieq
    have e1 : (c ++ [b]).get ⟨c.length, hi⟩ = b := by
      simp only [List.get_eq_getElem]
      exact List.getElem_concat_length c b c.length rfl _
    have hcpos : 0 < c.length := List.length_pos.mpr hne
    refine ⟨by rw [e1, hidx], by rw [e1]; exact hhash, ?_⟩
    intro hpos
    have hlt' : c.length - 1 < c.length := by omega
    have e2 : (c ++ [b]).get ⟨c.length - 1, by omega⟩ =
        c.get ⟨c.length - 1, hlt'⟩ := by
      simp only [List.get_eq_getElem]
      exact List.getElem_append_left hlt'
    rw [e1, e2, hprev, List.getLast_eq_getElem]
    simp only [List.get_eq_getElem]

/-- Every reachable ledger has a non-empty chain satisfying the
chain-integrity invariant. -/
theorem reachable_chain_inv (H : HashFn) (digest : DigestFn)
    (st : MedChainBlockchain) (hr : Reachable H digest st) :
    st.chain ≠ [] ∧ chainInv H st.chain := by
  induction hr with
  | genesis now fuel st hinit =>
      obtain ⟨g, hg, hst⟩ := Option.map_eq_some'.mp hinit
      obtain ⟨h1, h2, h3, h4, h5, h6, h7, h8⟩ :=
        Block.mine_spec H fuel (Block.new H 0 now [] sentinel) g rfl hg
      subst hst
      refine ⟨by simp, chainInv_singleton H g (by simpa using h1) h5⟩
  | create st batch_id drug_name manufacturer quantity status timeMs now hr ih =>
      exact ih
  | update st batch_id status timeMs now st' tid hr hstep ih =>
      unfold update_batch_status at hstep
      split at hstep
      · exact absurd hstep (by simp)
      · obtain ⟨hst, _⟩ := Prod.mk.injEq .. ▸ Except.ok.inj hstep
        subst hst
        exact ih
  | mine st now fuel st' h hr hstep ih =>
      unfold mine_pending at hstep
      obtain ⟨ihne, ihinv⟩ := ih
      split at hstep
      · exact absurd hstep (by simp)
      · rename_i tip htip
        split at hstep
        · obtain ⟨hst, _⟩ := Prod.mk.injEq .. ▸ Option.some.inj hstep
          subst hst
          exact ⟨ihne, ihinv⟩
        · split at hstep
          · exact absurd hstep (by simp)
          · rename_i sealed hmine
            obtain ⟨h1, h2, h3, h4, h5, h6, h7, h8⟩ :=
              Block.mine_spec H fuel _ sealed rfl hmine
            obtain ⟨hst, _⟩ := Prod.mk.injEq .. ▸ Option.some.inj hstep
            subst hst
            refine ⟨by simp, ?_⟩
            refine chainInv_append H st.chain sealed ihne ihinv
              (by simpa using h1) h5 ?_
            have htip' : st.chain.getLast ihne = tip :=
              (List.getLast?_eq_getLast st.chain ihne ▸ htip :
                (some (st.chain.getLast ihne) : Option Block) = some tip)
                |> Option.some.inj
            rw [htip']
            simpa using h4

/-!
## Claim theorems
-/

/-- C1, counterexample: with the key `"b1"` already present in the world
state of `ledger1`, `create_drug_batch` does not fail with any
duplicate-key condition: it appends one more CREATE transaction to the
pending pool, overwrites the world-state record, and returns the new
transaction id. -/
theorem C1_counterexample :
    pyGet? ledger1.world_state "b1" = some record1 ∧
    (create_drug_batch digestC ledger1 "b1" "ParaX" "AcmeX" 20 "fresh" 8
        "t3").1.pending_transactions.length =
      ledger1.pending_transactions.length + 1 ∧
    pyGet? (create_drug_batch digestC ledger1 "b1" "ParaX" "AcmeX" 20 "fresh"
        8 "t3").1.world_state "b1" =
      some (batch_payload "b1" "ParaX" "AcmeX" 20 "fresh" ++
        [("timestamp", Val.str "t3")]) ∧
    (create_drug_batch digestC ledger1 "b1" "ParaX" "AcmeX" 20 "fresh" 8
        "t3").2 = "TX-8-5" := by decide

/-- C1 (amended): `create_drug_batch` performs no duplicate-key check:
for every ledger state and every key — already present in the world
state or not — it appends exactly one CREATE transaction to the pending
pool, inserts (or overwrites) the record plus timestamp into the world
state under that key, leaves every other key and the chain untouched,
and returns the new transaction's id. -/
theorem C1_create_always_appends (digest : DigestFn)
    (st : MedChainBlockchain) (batch_id drug_name manufacturer : String)
    (quantity : Int) (status : String) (timeMs : Nat) (now : String) :
    (create_drug_batch digest st batch_id drug_name manufacturer quantity
        status timeMs now).1.pending_transactions =
      st.pending_transactions ++
        [new_tx digest "CREATE_BATCH"
          (batch_payload batch_id drug_name manufacturer quantity status)
          timeMs now] ∧
    (create_drug_batch digest st batch_id drug_name manufacturer quantity
        status timeMs now).1.chain = st.chain ∧
    pyGet? (create_drug_batch digest st batch_id drug_name manufacturer
        quantity status timeMs now).1.world_state batch_id =
      some (pySet (batch_payload batch_id drug_name manufacturer quantity
        status) "timestamp" (Val.str now)) ∧
    (∀ k, k ≠ batch_id →
      pyGet? (create_drug_batch digest st batch_id drug_name manufacturer
          quantity status timeMs now).1.world_state k =
        pyGet? st.world_state k) ∧
    (create_drug_batch digest st batch_id drug_name manufacturer quantity
        status timeMs now).2 =
      (new_tx digest "CREATE_BATCH"
        (batch_payload batch_id drug_name manufacturer quantity status)
        timeMs now).tx_id := by
  refine ⟨rfl, rfl, ?_, ?_, rfl⟩
  · exact pyGet?_pySet_self st.world_state batch_id _
  · intro k hk
    exact pyGet?_pySet_ne st.world_state batch_id k _ hk

theorem C1_create_always_appends_witness :
    (create_drug_batch digestC ledger1 "b1" "ParaX" "AcmeX" 20 "fresh" 8
        "t3").1.pending_transactions =
      ledger1.pending_transactions ++
        [new_tx digestC "CREATE_BATCH"
          (batch_payload "b1" "ParaX" "AcmeX" 20 "fresh") 8 "t3"] ∧
    (create_drug_batch digestC ledger1 "b1" "ParaX" "AcmeX" 20 "fresh" 8
        "t3").1.chain = ledger1.chain ∧
    pyGet? (create_drug_batch digestC ledger1 "b1" "ParaX" "AcmeX" 20 "fresh"
        8 "t3").1.world_state "b1" =
      some (pySet (batch_payload "b1" "ParaX" "AcmeX" 20 "fresh")
        "timestamp" (Val.str "t3")) ∧
    pyGet? (create_drug_batch digestC ledger1 "b1" "ParaX" "AcmeX" 20 "fresh"
        8 "t3").1.world_state "zz" = pyGet? ledger1.world_state "zz" ∧
    (create_drug_batch digestC ledger1 "b1" "ParaX" "AcmeX" 20 "fresh" 8
        "t3").2 =
      (new_tx digestC "CREATE_BATCH"
        (batch_payload "b1" "ParaX" "AcmeX" 20 "fresh") 8 "t3").tx_id := by
  obtain ⟨h1, h2, h3, h4, h5⟩ :=
    C1_create_always_appends digestC ledger1 "b1" "ParaX" "AcmeX" 20 "fresh"
      8 "t3"
  exact ⟨h1, h2, h3, h4 "zz" (by decide), h5⟩

/-- C9: with an empty pending pool, sealing is a no-op, not an error:
the whole ledger state is unchanged and the existing tip's hash is
returned. -/
theorem C9_empty_seal_noop (H : HashFn) (st : MedChainBlockchain)
    (now : String) (fuel : Nat) (tip : Block)
    (htip : st.chain.getLast? = some tip)
    (hemp : st.pending_transactions = []) :
    mine_pending H st now fuel = some (st, tip.hash) := by
  unfold mine_pending
  rw [htip]
  simp [hemp]

theorem C9_empty_seal_noop_witness :
    mine_pending Hc ledger0 "t9" 3 = some (ledger0, genesis0.hash) :=
  C9_empty_seal_noop Hc ledger0 "t9" 3 genesis0 (by decide) rfl

/-- C10: immediately after construction the chain holds exactly one
block — index 0, no transactions, the 64-zero sentinel previous hash,
and a mined hash (it has the difficulty prefix) — and the pending pool
and world state are empty. -/
theorem C10_genesis_state (H : HashFn) (now : String) (fuel : Nat)
    (st : MedChainBlockchain)
    (hinit : MedChainBlockchain.init H now fuel = some st) :
    st.chain.length = 1 ∧
    st.pending_transactions = [] ∧
    st.world_state = [] ∧
    ∀ hi : 0 < st.chain.length,
      (st.chain.get ⟨0, hi⟩).index = 0 ∧
      (st.chain.get ⟨0, hi⟩).transactions = [] ∧
      (st.chain.get ⟨0, hi⟩).previous_hash = sentinel ∧
      str_startswith (st.chain.get ⟨0, hi⟩).hash Block.target = true := by
  unfold MedChainBlockchain.init at hinit
  obtain ⟨g, hg, hst⟩ := Option.map_eq_some'.mp hinit
  unfold create_genesis_block at hg
  obtain ⟨h1, h2, h3, h4, h5, h6, h7, h8⟩ :=
    Block.mine_spec H fuel (Block.new H 0 now [] sentinel) g rfl hg
  subst hst
  refine ⟨rfl, rfl, rfl, ?_⟩
  intro hi
  exact ⟨by simpa [Block.new] using h1, by simpa [Block.new] using h3,
    by simpa [Block.new] using h4, h6⟩

theorem C10_genesis_state_witness :
    ledger0.chain.length = 1 ∧
    ledger0.pending_transactions = [] ∧
    ledger0.world_state = [] ∧
    ((ledger0.chain.get ⟨0, by decide⟩).index = 0 ∧
     (ledger0.chain.get ⟨0, by decide⟩).transactions = [] ∧
     (ledger0.chain.get ⟨0, by decide⟩).previous_hash = sentinel ∧
     str_startswith (ledger0.chain.get ⟨0, by decide⟩).hash Block.target =
       true) := by
  obtain ⟨h1, h2, h3, h4⟩ := C10_genesis_state Hc "t0" 5 ledger0 (by decide)
  exact ⟨h1, h2, h3, h4 (by decide)⟩

/-- C2: in every ledger state reachable by any valid sequence of submit
and seal calls, every block's index equals its position, every
non-genesis block's previous hash equals its predecessor's stored hash,
and recomputing each block's hash from its stored fields reproduces the
stored hash exactly. -/
theorem C2_chain_integrity (H : HashFn) (digest : DigestFn)
    (st : MedChainBlockchain) (hr : Reachable H digest st)
    (i : Nat) (hi : i < st.chain.length) :
    (st.chain.get ⟨i, hi⟩).index = i ∧
    (st.chain.get ⟨i, hi⟩).hash =
      Block.calculate_hash H (st.chain.get ⟨i, hi⟩) ∧
    ∀ _hpos : 0 < i,
      (st.chain.get ⟨i, hi⟩).previous_hash =
        (st.chain.get ⟨i - 1, by omega⟩).hash :=
  (reachable_chain_inv H digest st hr).2 i hi

theorem C2_chain_integrity_witness :
    (ledger2.chain.get ⟨1, by decide⟩).index = 1 ∧
    (ledger2.chain.get ⟨1, by decide⟩).hash =
      Block.calculate_hash Hc (ledger2.chain.get ⟨1, by decide⟩) ∧
    (ledger2.chain.get ⟨1, by decide⟩).previous_hash =
      (ledger2.chain.get ⟨0, by decide⟩).hash := by
  obtain ⟨h1, h2, h3⟩ :=
    C2_chain_integrity Hc digestC ledger2
      (Reachable.mine _ "t2" 9 ledger2 "00h"
        (Reachable.create ledger0 "b1" "Para" "Acme" 10 "pending" 7 "t1"
          (Reachable.genesis "t0" 5 ledger0 (by decide)))
        (by decide))
      1 (by decide)
  exact ⟨h1, h2, h3 (by decide)⟩

/-- C4: whenever the miner seals a freshly constructed block, the
resulting hash has the prefix of `DIFFICULTY = 2` copies of `'0'`, the
stored hash is the recomputation at the stored nonce, and no smaller
nonce, substituted and rehashed, satisfies the prefix condition (the
linear scan returns the least satisfying nonce). -/
theorem C4_mining_correctness (H : HashFn) (fuel : Nat) (i : Nat)
    (now : String) (txs : List Transaction) (prev : String) (b' : Block)
    (hm : Block.mine H fuel (Block.new H i now txs prev) = some b') :
    Block.target = "00" ∧
    str_startswith b'.hash Block.target = true ∧
    b'.hash = Block.calculate_hash H b' ∧
    ∀ m, m < b'.nonce →
      str_startswith (Block.calculate_hash H { b' with nonce := m })
        Block.target = false := by
  obtain ⟨h1, h2, h3, h4, h5, h6, h7, h8⟩ :=
    Block.mine_spec H fuel (Block.new H i now txs prev) b' rfl hm
  refine ⟨by decide, h6, h5, ?_⟩
  intro m hmlt
  have hmin := h8 m (Nat.zero_le m) hmlt
  have hcalc :
      Block.calculate_hash H ({ b' with nonce := m } : Block) =
        Block.calculate_hash H
          ({ Block.new H i now txs prev with nonce := m } : Block) := by
    simp only [Block.calculate_hash]
    rw [h1, h2, h3, h4]
  rw [hcalc]
  exact hmin

theorem C4_mining_correctness_witness :
    str_startswith block1.hash Block.target = true ∧
    block1.hash = Block.calculate_hash Hc block1 ∧
    str_startswith (Block.calculate_hash Hc { block1 with nonce := 0 })
      Block.target = false := by
  obtain ⟨h0, h1, h2, h3⟩ :=
    C4_mining_correctness Hc 9 1 "t2" [tx1] "00h" block1 (by decide)
  exact ⟨h1, h2, h3 0 (by decide)⟩

/-- C8: sealing a ledger whose pending pool is non-empty appends exactly
one block — indexed by the prior chain length, carrying the pending
transactions in submission order, linked to the prior tip's hash —
clears the pending pool, leaves the world state unchanged, and returns
the new block's hash. -/
theorem C8_seal_appends (H : HashFn) (st : MedChainBlockchain)
    (now : String) (fuel : Nat) (tip sealed : Block)
    (htip : st.chain.getLast? = some tip)
    (hne : st.pending_transactions ≠ [])
    (hmine : Block.mine H fuel
      (Block.new H st.chain.length now st.pending_transactions tip.hash) =
        some sealed) :
    mine_pending H st now fuel =
      some
        ({ st with
            chain := st.chain ++ [sealed],
            pending_transactions := [] },
         sealed.hash) ∧
    sealed.index = st.chain.length ∧
    sealed.transactions = st.pending_transactions ∧
    sealed.previous_hash = tip.hash := by
  obtain ⟨h1, h2, h3, h4, h5, h6, h7, h8⟩ :=
    Block.mine_spec H fuel
      (Block.new H st.chain.length now st.pending_transactions tip.hash)
      sealed rfl hmine
  refine ⟨?_, by simpa [Block.new] using h1, by simpa [Block.new] using h3,
    by simpa [Block.new] using h4⟩
  unfold mine_pending
  rw [htip]
  simp only [List.isEmpty_iff]
  rw [if_neg hne, hmine]

theorem C8_seal_appends_witness :
    mine_pending Hc ledger1 "t2" 9 =
      some
        ({ ledger1 with
            chain := ledger1.chain ++ [block1],
            pending_transactions := [] },
         block1.hash) ∧
    block1.index = ledger1.chain.length ∧
    block1.transactions = ledger1.pending_transactions ∧
    block1.previous_hash = genesis0.hash :=
  C8_seal_appends Hc ledger1 "t2" 9 genesis0 block1 (by decide)
    (by decide) (by decide)

/-- Under a hash function whose digest never attains the target prefix,
every iteration of the mining loop fails the prefix test, so the loop
never exits — whatever bound is imposed on the number of iterations. -/
theorem Hbad_mine_none : ∀ (fuel : Nat) (b : Block), b.hash = "ff" →
    Block.mine Hbad fuel b = none := by
  intro fuel
  induction fuel with
  | zero =>
      intro b hb
      rw [Block.mine, hb, if_neg (by decide)]
  | succ f ih =>
      intro b hb
      rw [Block.mine, hb, if_neg (by decide)]
      exact ih _ rfl

/-- When the mining loop does not terminate, `_mine_pending` never
returns: nothing is appended and the pool is never cleared, but no
error condition is surfaced either. -/
theorem mine_pending_of_mine_none (H : HashFn) (st : MedChainBlockchain)
    (now : String) (fuel : Nat) (tip : Block)
    (htip : st.chain.getLast? = some tip)
    (hne : st.pending_transactions ≠ [])
    (hmine : Block.mine H fuel
      (Block.new H st.chain.length now st.pending_transactions tip.hash) =
        none) :
    mine_pending H st now fuel = none := by
  unfold mine_pending
  rw [htip]
  simp only [List.isEmpty_iff]
  rw [if_neg hne, hmine]

/-- C3 evidence: `Block.mine` has no iteration guard and the code has no
MiningExhausted condition: on a ledger whose next block admits no
satisfying nonce, sealing fails to return for every iteration bound
(the `while` loop of the source runs forever), instead of surfacing an
error to the caller. -/
theorem C3_mining_has_no_guard :
    ∀ fuel : Nat, mine_pending Hbad ledger1 "t2" fuel = none := by
  intro fuel
  exact mine_pending_of_mine_none Hbad ledger1 "t2" fuel genesis0
    (by decide) (by decide) (Hbad_mine_none fuel _ rfl)

/-- C5, counterexample: appending a transaction to the transactions list
obtained from a `blockchain_view` summary mutates the ledger's own
block (the summary aliases the block's list object rather than copying
it), and a subsequent view call observes the change. -/
theorem C5_counterexample :
    heapGet
        (heapSet heap0 ((BlockRef.summary blockR).txref)
          (heapGet heap0 ((BlockRef.summary blockR).txref) ++ [tx1]))
        blockR.txref ≠
      heapGet heap0 blockR.txref ∧
    read_view
        (heapSet heap0 ((BlockRef.summary blockR).txref)
          (heapGet heap0 ((BlockRef.summary blockR).txref) ++ [tx1]))
        (blockchain_view_ref [blockR]) ≠
      read_view heap0 (blockchain_view_ref [blockR]) := by decide

/-- C5 (amended): `world_state_view` is a JSON deep copy, safe to
mutate, but `Block.summary` stores the block's own transactions list,
not a copy: the summary's transactions reference is the block's, and
writing through the reference obtained from a view rewrites the block's
transactions to a genuinely different list. -/
theorem C5_summary_aliases_transactions (h : Heap) (b : BlockRef)
    (tx : Transaction) (hr : b.txref < h.length) :
    (BlockRef.summary b).txref = b.txref ∧
    heapGet (heapSet h ((BlockRef.summary b).txref)
        (heapGet h b.txref ++ [tx])) b.txref =
      heapGet h b.txref ++ [tx] ∧
    heapGet h b.txref ++ [tx] ≠ heapGet h b.txref := by
  refine ⟨rfl, heapGet_heapSet_self h b.txref _ hr, ?_⟩
  intro hEq
  have hlen := congrArg List.length hEq
  simp at hlen

theorem C5_summary_aliases_transactions_witness :
    (BlockRef.summary blockR).txref = blockR.txref ∧
    heapGet (heapSet heap0 ((BlockRef.summary blockR).txref)
        (heapGet heap0 blockR.txref ++ [tx1])) blockR.txref =
      heapGet heap0 blockR.txref ++ [tx1] ∧
    heapGet heap0 blockR.txref ++ [tx1] ≠ heapGet heap0 blockR.txref :=
  C5_summary_aliases_transactions heap0 blockR tx1 (by decide)

/-- C6, counterexample: a summary returned by `blockchain_view` carries
only the five keys index, timestamp, hash, previous_hash and
transactions — the `nonce` field of the block is absent. -/
theorem C6_counterexample :
    ((blockchain_view ledger0).get ⟨0, by decide⟩).map Prod.fst =
      ["index", "timestamp", "hash", "previous_hash", "transactions"] ∧
    pyGet? ((blockchain_view ledger0).get ⟨0, by decide⟩) "nonce" =
      none := by decide

/-- C6 (amended): every element of `blockchain_view` is the summary of
the corresponding chain block and carries exactly five of its fields —
index, timestamp, hash, previous_hash and transactions — with the
block's values; the nonce is not included. -/
theorem C6_view_carries_five_fields (st : MedChainBlockchain) (i : Nat)
    (hi : i < st.chain.length) :
    (blockchain_view st).length = st.chain.length ∧
    ∀ hi2 : i < (blockchain_view st).length,
      pyGet? ((blockchain_view st).get ⟨i, hi2⟩) "index" =
        some (SVal.nat (st.chain.get ⟨i, hi⟩).index) ∧
      pyGet? ((blockchain_view st).get ⟨i, hi2⟩) "timestamp" =
        some (SVal.str (st.chain.get ⟨i, hi⟩).timestamp) ∧
      pyGet? ((blockchain_view st).get ⟨i, hi2⟩) "hash" =
        some (SVal.str (st.chain.get ⟨i, hi⟩).hash) ∧
      pyGet? ((blockchain_view st).get ⟨i, hi2⟩) "previous_hash" =
        some (SVal.str (st.chain.get ⟨i, hi⟩).previous_hash) ∧
      pyGet? ((blockchain_view st).get ⟨i, hi2⟩) "transactions" =
        some (SVal.txs (st.chain.get ⟨i, hi⟩).transactions) ∧
      pyGet? ((blockchain_view st).get ⟨i, hi2⟩) "nonce" = none := by
  refine ⟨by simp [blockchain_view], ?_⟩
  intro hi2
  have hv : (blockchain_view st).get ⟨i, hi2⟩ =
      Block.summary (st.chain.get ⟨i, hi⟩) := by
    simp [blockchain_view, List.get_eq_getElem]
  rw [hv]
  refine ⟨?_, ?_, ?_, ?_, ?_, ?_⟩ <;> simp [Block.summary, pyGet?]

theorem C6_view_carries_five_fields_witness :
    (blockchain_view ledger2).length = ledger2.chain.length ∧
    (pyGet? ((blockchain_view ledger2).get ⟨1, by decide⟩) "index" =
      some (SVal.nat (ledger2.chain.get ⟨1, by decide⟩).index) ∧
    pyGet? ((blockchain_view ledger2).get ⟨1, by decide⟩) "timestamp" =
      some (SVal.str (ledger2.chain.get ⟨1, by decide⟩).timestamp) ∧
    pyGet? ((blockchain_view ledger2).get ⟨1, by decide⟩) "hash" =
      some (SVal.str (ledger2.chain.get ⟨1, by decide⟩).hash) ∧
    pyGet? ((blockchain_view ledger2).get ⟨1, by decide⟩) "previous_hash" =
      some (SVal.str (ledger2.chain.get ⟨1, by decide⟩).previous_hash) ∧
    pyGet? ((blockchain_view ledger2).get ⟨1, by decide⟩) "transactions" =
      some (SVal.txs (ledger2.chain.get ⟨1, by decide⟩).transactions) ∧
    pyGet? ((blockchain_view ledger2).get ⟨1, by decide⟩) "nonce" =
      none) := by
  obtain ⟨h1, h2⟩ := C6_view_carries_five_fields ledger2 1 (by decide)
  exact ⟨h1, h2 (by decide)⟩

/-- C7, counterexample: two distinct pending-pool entries carry the same
transaction id — submitting equal payloads within the same millisecond
produces colliding `TX-<ms>-<digest>` ids. -/
theorem C7_counterexample :
    st_dup.pending_transactions.length = 2 ∧
    (st_dup.pending_transactions.get ⟨0, by decide⟩).tx_id =
      (st_dup.pending_transactions.get ⟨1, by decide⟩).tx_id := by decide

/-- C7 (amended): a transaction id is determined by — and only by — the
millisecond clock reading and the payload digest: two transactions
receive equal ids exactly when those two components agree, so two
submissions in the same millisecond with equal payloads collide and ids
are not unique within a run. -/
theorem C7_tx_id_characterization (digest : DigestFn)
    (ty1 ty2 : String) (p1 p2 : Payload) (ms1 ms2 : Nat)
    (now1 now2 : String) :
    (new_tx digest ty1 p1 ms1 now1).tx_id =
        (new_tx digest ty2 p2 ms2 now2).tx_id ↔
      toString ms1 ++ "-" ++ digest p1 =
        toString ms2 ++ "-" ++ digest p2 := by
  constructor
  · intro h
    apply String.ext
    have h2 := congrArg String.data h
    simp only [new_tx, String.data_append, List.append_assoc] at h2
    simp only [String.data_append, List.append_assoc]
    exact List.append_cancel_left h2
  · intro h
    apply String.ext
    have h2 := congrArg String.data h
    simp only [String.data_append, List.append_assoc] at h2
    simp only [new_tx, String.data_append, List.append_assoc]
    rw [h2]

theorem C7_tx_id_characterization_witness :
    (new_tx digestC "CREATE_BATCH" [] 5 "a").tx_id =
      (new_tx digestC "UPDATE_STATUS" [] 5 "b").tx_id :=
  (C7_tx_id_characterization digestC "CREATE_BATCH" "UPDATE_STATUS" [] []
    5 5 "a" "b").mpr rfl

end MedChain
